import Mathlib

/-!
Verification development for the spotify_recommender repository.

Shallow embedding of the core logic of `src/make_recs.py` (the
RecommendationExpander), `src/build_catalog.py` (the ProfileBuilder) and
`src/compare_recs.py` (the ComparisonEngine), together with theorems about
the spec's claims.

Conventions of the embedding:
- Python `str` values are `String`; optional dict fields are `Option String`
  (`None` is `none`); Python's `x or ""` coalescing becomes `Option.getD`.
- Python floats used as record weights are embedded as `ℚ`: the code only
  ever assigns small decimal constants and compares them, and those
  comparisons agree with the rational ones.
- External calls through `spotipy` are a `Provider` of `Except`-valued
  functions; a raised exception is an `Except.error`.
- Python's stable `sorted` / pandas' stable multi-column sort are embedded
  as `List.insertionSort`, which is a stable sort.
- The run additionally records the trace of provider invocations it makes
  (`GenState.calls`), mirroring the side-effectful `spotipy` calls in the
  source seed loop.
-/

namespace SpotifyRec

/-! ### Data model for `make_recs.py` -/

structure Artist where
  id : Option String
  name : Option String
deriving DecidableEq, Repr

structure Track where
  id : Option String
  name : Option String
  artists : List Artist
  albumName : Option String
  popularity : Option Int
deriving DecidableEq, Repr

/-- One candidate row as built by `as_row` in `make_recs.py`. -/
structure Row where
  track_id : Option String
  name : Option String
  artist_id : Option String
  artist_name : Option String
  album : Option String
  popularity : Option Int
  source : String
deriving DecidableEq, Repr

/-- The two external collaborators (`artist_top_tracks`, `artist_related_artists`);
an `Except.error` is a raised exception at the call site. -/
structure Provider where
  topTracks : String → String → Except String (List Track)
  relatedArtists : String → Except String (List Artist)

/-- The numeric knobs of `make_recs.py` (module constants
`TOP_PER_ARTIST`, `RELATED_PER_SEED`, `TARGET_TRACKS`, `MARKET`). -/
structure Config where
  topPerArtist : Nat
  relatedPerSeed : Nat
  targetTracks : Nat
  market : String

/-! ### Spotify helpers (`get_top_tracks`, `get_related`, `tracks_from_artist`) -/

/-- `get_top_tracks`: returns the track list, `[]` on any exception. -/
def get_top_tracks (p : Provider) (artistId market : String) : List Track :=
  match p.topTracks artistId market with
  | .ok ts => ts
  | .error _ => []

/-- `get_related`: returns the related-artist list, `[]` on any exception. -/
def get_related (p : Provider) (artistId : String) : List Artist :=
  match p.relatedArtists artistId with
  | .ok as => as
  | .error _ => []

/-- `tracks_from_artist`: top tracks truncated to `per_artist`. -/
def tracks_from_artist (p : Provider) (cfg : Config) (artistId : String) : List Track :=
  (get_top_tracks p artistId cfg.market).take cfg.topPerArtist

/-- `as_row(track, source)`: `arts[0] if arts else {}` is `headD ⟨none, none⟩`. -/
def as_row (t : Track) (source : String) : Row :=
  let a0 : Artist := t.artists.headD ⟨none, none⟩
  { track_id := t.id, name := t.name, artist_id := a0.id, artist_name := a0.name,
    album := t.albumName, popularity := t.popularity, source := source }

/-- `str(r.get("track_id") or "")`: missing id and empty id both map to `""`. -/
def tidStr (r : Row) : String := r.track_id.getD ""

/-! ### `dedup_rows` and `remove_owned` -/

/-- The loop of `dedup_rows`: keep a row only when its id string is non-empty
and unseen. -/
def dedupGo (seen : List String) : List Row → List Row
  | [] => []
  | r :: rs =>
    let tid := tidStr r
    if tid ≠ "" ∧ tid ∉ seen then r :: dedupGo (tid :: seen) rs
    else dedupGo seen rs

def dedup_rows (rows : List Row) : List Row := dedupGo [] rows

/-- The owned-id set: `catalog_df["track_id"].dropna().astype(str)`;
the column's cells are `Option String` (`none` is a NaN). -/
def ownedSet (catalogIds : List (Option String)) : List String :=
  catalogIds.filterMap id

/-- `remove_owned`: early return when the catalog is empty (or, in the source,
lacks the `track_id` column — a catalog without track ids is embedded as the
empty column). -/
def remove_owned (rows : List Row) (catalogIds : List (Option String)) : List Row :=
  if catalogIds.isEmpty then rows
  else rows.filter (fun r => decide (tidStr r ∉ ownedSet catalogIds))

/-! ### Ranking (`sort_key` and the stable sort) -/

/-- `sort_key(r) = (pri, -int(pop))` with `pri = 0` iff the source is
`seed_top`, and `pop = r.get("popularity") or 0`. -/
def sort_key (r : Row) : Int × Int :=
  (if r.source = "seed_top" then 0 else 1, -(r.popularity.getD 0))

/-- Lexicographic comparison of sort keys: the order Python's tuple
comparison gives `sorted`. -/
def rowKeyLe (a b : Row) : Prop :=
  (sort_key a).1 < (sort_key b).1 ∨
    ((sort_key a).1 = (sort_key b).1 ∧ (sort_key a).2 ≤ (sort_key b).2)

instance : DecidableRel rowKeyLe := fun a b => by
  unfold rowKeyLe
  infer_instance

instance : IsTotal Row rowKeyLe := by
  constructor
  intro a b
  unfold rowKeyLe
  rcases lt_trichotomy (sort_key a).1 (sort_key b).1 with h | h | h
  · exact Or.inl (Or.inl h)
  · rcases le_total (sort_key a).2 (sort_key b).2 with h2 | h2
    · exact Or.inl (Or.inr ⟨h, h2⟩)
    · exact Or.inr (Or.inr ⟨h.symm, h2⟩)
  · exact Or.inr (Or.inl h)

instance : IsTrans Row rowKeyLe := by
  constructor
  intro a b c hab hbc
  unfold rowKeyLe at *
  rcases hab with h1 | ⟨h1, h1'⟩
  · rcases hbc with h2 | ⟨h2, _⟩
    · exact Or.inl (h1.trans h2)
    · exact Or.inl (h2 ▸ h1)
  · rcases hbc with h2 | ⟨h2, h2'⟩
    · exact Or.inl (h1 ▸ h2)
    · exact Or.inr ⟨h1.trans h2, h1'.trans h2'⟩

/-- `sorted(rows, key=sort_key)`: Python's `sorted` is stable, embedded as
insertion sort over the key order. -/
def rankRows (rows : List Row) : List Row :=
  List.insertionSort rowKeyLe rows

/-! ### The seed traversal of `gen_for_seeds` -/

/-- A record of one external provider invocation. -/
inductive ProviderCall where
  | top (artistId market : String)
  | related (artistId : String)
deriving DecidableEq, Repr

/-- The mutable state of the seed loop: `used_artists`, `rows`, and the trace
of provider calls made so far. -/
structure GenState where
  used : List String
  rows : List Row
  calls : List ProviderCall
deriving Repr

/-- `a.get("id")` filtered for truthiness in
`[a.get("id") for a in related if a.get("id")]`. -/
def artistIdTruthy (a : Artist) : Option String :=
  match a.id with
  | some s => if s = "" then none else some s
  | none => none

/-- The inner loop over `rel_ids`: skip already-visited ids, mark the rest
visited and collect their top tracks tagged `by_related_top`. -/
def relLoop (p : Provider) (cfg : Config) : List String → GenState → GenState
  | [], st => st
  | rid :: rest, st =>
    if rid ∈ st.used then relLoop p cfg rest st
    else
      relLoop p cfg rest
        { used := st.used ++ [rid]
          rows := st.rows ++ (tracks_from_artist p cfg rid).map (as_row · "by_related_top")
          calls := st.calls ++ [ProviderCall.top rid cfg.market] }

/-- First phase of one seed iteration: the seed's own top tracks appended,
tagged `seed_top`. -/
def seedTopStep (p : Provider) (cfg : Config) (seed : String) (st : GenState) : GenState :=
  { used := st.used
    rows := st.rows ++ (tracks_from_artist p cfg seed).map (as_row · "seed_top")
    calls := st.calls ++ [ProviderCall.top seed cfg.market] }

/-- Second phase of one seed iteration: when `RELATED_PER_SEED > 0`, fetch
the related artists, truncate their (truthy) ids to `RELATED_PER_SEED`, and
run them through the inner loop. -/
def relStep (p : Provider) (cfg : Config) (seed : String) (st1 : GenState) : GenState :=
  if 0 < cfg.relatedPerSeed then
    relLoop p cfg (((get_related p seed).filterMap artistIdTruthy).take cfg.relatedPerSeed)
      { st1 with calls := st1.calls ++ [ProviderCall.related seed] }
  else st1

/-- The seed loop of `gen_for_seeds`: both phases per seed in input order,
then the safety early-exit once the raw row count reaches
`2 × TARGET_TRACKS`. -/
def genLoop (p : Provider) (cfg : Config) : List String → GenState → GenState
  | [], st => st
  | seed :: rest, st =>
    if cfg.targetTracks * 2 ≤ (relStep p cfg seed (seedTopStep p cfg seed st)).rows.length then
      relStep p cfg seed (seedTopStep p cfg seed st)
    else genLoop p cfg rest (relStep p cfg seed (seedTopStep p cfg seed st))

/-- The final truncation: `if len(rows) > TARGET_TRACKS: rows = rows[:TARGET_TRACKS]`. -/
def truncateTarget (cfg : Config) (rows : List Row) : List Row :=
  if cfg.targetTracks < rows.length then rows.take cfg.targetTracks else rows

/-- The full `gen_for_seeds` post-collection pipeline: dedup, filter owned,
rank, truncate to `TARGET_TRACKS`. -/
def gen_for_seeds (p : Provider) (cfg : Config) (seeds : List String)
    (catalogIds : List (Option String)) : List Row :=
  truncateTarget cfg
    (rankRows (remove_owned (dedup_rows (genLoop p cfg seeds ⟨[], [], []⟩).rows) catalogIds))

/-- The provider-call trace of a run. -/
def genCalls (p : Provider) (cfg : Config) (seeds : List String) : List ProviderCall :=
  (genLoop p cfg seeds ⟨[], [], []⟩).calls

/-! ### Data model for `build_catalog.py` (the ProfileBuilder) -/

/-- One row of the merged `all_rows` frame: a weighted listening record.
`track_id` is a `String` (the source casts the column with `astype(str)`);
`weight` is the float column, `none` before `fillna`. -/
structure CatRec where
  track_id : String
  artist_id : Option String
  artist_name : Option String
  genres : Option String
  weight : Option ℚ
  source : String
deriving DecidableEq, Repr

/-- Source weight for the `saved` frame. -/
def savedWeight : ℚ := 1

/-- Source weight for the `top` frame:
`map({"short_term": 2.0, "medium_term": 1.6, "long_term": 1.3}).fillna(1.5)`. -/
def topWeight (timeRange : Option String) : ℚ :=
  match timeRange with
  | some "short_term" => 2
  | some "medium_term" => 8 / 5
  | some "long_term" => 13 / 10
  | _ => 3 / 2

/-- Source weight for the `recent` frame. -/
def recentWeight : ℚ := 11 / 5

/-- Line 100 of the source: `all_rows["weight"].fillna(1.0)`. -/
def fillWeight (r : CatRec) : CatRec := { r with weight := some (r.weight.getD 1) }

/-- The filled weight of a record, as the canonicalizing sort reads it. -/
def wOf (r : CatRec) : ℚ := r.weight.getD 1

/-- The order of `sort_values(["track_id", "weight"], ascending=[True, False])`:
track id ascending, weight descending. -/
def catLe (a b : CatRec) : Prop :=
  a.track_id < b.track_id ∨ (a.track_id = b.track_id ∧ wOf b ≤ wOf a)

instance : DecidableRel catLe := fun a b => by
  unfold catLe
  infer_instance

instance : IsTotal CatRec catLe := by
  constructor
  intro a b
  unfold catLe
  rcases lt_trichotomy a.track_id b.track_id with h | h | h
  · exact Or.inl (Or.inl h)
  · rcases le_total (wOf b) (wOf a) with h2 | h2
    · exact Or.inl (Or.inr ⟨h, h2⟩)
    · exact Or.inr (Or.inr ⟨h.symm, h2⟩)
  · exact Or.inr (Or.inl h)

instance : IsTrans CatRec catLe := by
  constructor
  intro a b c hab hbc
  unfold catLe at *
  rcases hab with h1 | ⟨h1, h1'⟩
  · rcases hbc with h2 | ⟨h2, _⟩
    · exact Or.inl (h1.trans h2)
    · exact Or.inl (h2 ▸ h1)
  · rcases hbc with h2 | ⟨h2, h2'⟩
    · exact Or.inl (h1 ▸ h2)
    · exact Or.inr ⟨h1.trans h2, h2'.trans h1'⟩

/-- `drop_duplicates(subset=["track_id"], keep="first")`. -/
def dropDupTidGo (seen : List String) : List CatRec → List CatRec
  | [] => []
  | r :: rs =>
    if r.track_id ∈ seen then dropDupTidGo seen rs
    else r :: dropDupTidGo (r.track_id :: seen) rs

/-- Step 1 of the ProfileBuilder (source lines 100–103): fill missing weights,
stable-sort by `(track_id ↑, weight ↓)` (pandas' multi-key sort is a stable
lexsort), keep the first row of each `track_id`. -/
def canonicalize (rows : List CatRec) : List CatRec :=
  dropDupTidGo [] (List.insertionSort catLe (rows.map fillWeight))

/-! ### ProfileBuilder aggregation (source lines 110–126) -/

/-- Python's `str.split(",")` on the character list, structurally:
`"".split(",") = [""]`, and each comma starts a new token. -/
def splitAux (sep : Char) : List Char → List (List Char)
  | [] => [[]]
  | c :: cs =>
    match splitAux sep cs with
    | [] => [[]]
    | g :: gs => if c = sep then [] :: g :: gs else (c :: g) :: gs

/-- Python's `str.split(",")` (a one-character separator). -/
def pySplit (sep : Char) (s : String) : List String :=
  (splitAux sep s.data).map String.mk

/-- Python's `str.strip()`: drop whitespace from both ends. -/
def pyStrip (s : String) : String :=
  String.mk (((s.data.dropWhile Char.isWhitespace).reverse.dropWhile Char.isWhitespace).reverse)

/-- Python's `str.lower()` (ASCII, which is all the code compares against). -/
def pyLower (s : String) : String :=
  String.mk (s.data.map Char.toLower)

/-- `split_genres` of `build_catalog.py`: `[]` for a missing/blank string,
otherwise comma-split, strip, and drop blank tokens (nothing else). -/
def split_genres (x : Option String) : List String :=
  match x with
  | none => []
  | some s =>
    if pyStrip s = "" then []
    else ((pySplit ',' s).map pyStrip).filter (fun g => g != "")

/-- `float(row.get("weight", 1.0) or 1.0)`: a missing weight and a `0.0`
weight (falsy in Python) both read as `1.0`. -/
def pyFloatW (w : Option ℚ) : ℚ :=
  let v := w.getD 1
  if v = 0 then 1 else v

/-- The accumulator key used by the source loop: `(a_id, a_nm)` with
`a_nm = row.get("artist_name") or ""`, guarded by `if a_id:`
(a missing or empty id contributes nothing). -/
def artistKey (r : CatRec) : Option (String × String) :=
  match r.artist_id with
  | some a => if a = "" then none else some (a, r.artist_name.getD "")
  | none => none

/-- `Counter` update: add `w` at key `k`, appending a fresh entry when the
key is new (`Counter` keeps first-insertion order). -/
def bump {κ : Type} [DecidableEq κ] (k : κ) (w : ℚ) : List (κ × ℚ) → List (κ × ℚ)
  | [] => [(k, w)]
  | (k', v) :: rest => if k' = k then (k', v + w) :: rest else (k', v) :: bump k w rest

/-- One aggregation-loop iteration's effect on `artist_counter`:
`if a_id: artist_counter[(a_id, a_nm)] += w`. -/
def artStep (acc : List ((String × String) × ℚ)) (r : CatRec) : List ((String × String) × ℚ) :=
  match artistKey r with
  | some k => bump k (pyFloatW r.weight) acc
  | none => acc

/-- The `artist_counter` built by the aggregation loop. The source fills both
counters in one pass over `all_rows`; the two accumulators are independent,
so each is embedded as its own fold over the same rows. -/
def artist_counter (rows : List CatRec) : List ((String × String) × ℚ) :=
  rows.foldl artStep []

/-- One aggregation-loop iteration's effect on `genre_counter`: one bump per
token of `split_genres(row.get("genres", ""))`. -/
def genStep (acc : List (String × ℚ)) (r : CatRec) : List (String × ℚ) :=
  (split_genres r.genres).foldl (fun a g => bump g (pyFloatW r.weight) a) acc

def genre_counter (rows : List CatRec) : List (String × ℚ) :=
  rows.foldl genStep []

/-- Association-list lookup (the counters and the genre map have unique keys). -/
def alLookup {κ β : Type} [DecidableEq κ] (k : κ) : List (κ × β) → Option β
  | [] => none
  | (k', v) :: rest => if k' = k then some v else alLookup k rest

/-! ### `compare_recs.py`: the artist → genre lookup -/

/-- One row of `artists.csv` as `genres_map_from_artists` reads it. -/
structure ArtistRow where
  artist_id : Option String
  genres : Option String
deriving DecidableEq, Repr

/-- Python's `str(...)` on an optional value: `str(None)` is `"None"`. -/
def pyStr (x : Option String) : String :=
  match x with
  | none => "None"
  | some s => s

/-- The genre tokens of one artist row in `genres_map_from_artists`:
comma-split, strip, drop blank and case-insensitive `"nan"` tokens. -/
def compareTokens (val : Option String) : List String :=
  match val with
  | none => []
  | some s =>
    if pyStrip s = "" then []
    else ((pySplit ',' s).map pyStrip).filter (fun g => g != "" && pyLower g != "nan")

/-- Python dict assignment `gm[aid] = glist`: overwrite in place, append when
the key is new. -/
def setKey (k : String) (v : List String) :
    List (String × List String) → List (String × List String)
  | [] => [(k, v)]
  | (k', v') :: rest => if k' = k then (k, v) :: rest else (k', v') :: setKey k v rest

/-- `genres_map_from_artists`: fold the dict assignments over the artist rows
in order. -/
def genres_map_from_artists (rows : List ArtistRow) : List (String × List String) :=
  rows.foldl (fun gm r => setKey (pyStr r.artist_id) (compareTokens r.genres) gm) []

/-! ### Concrete fixtures used by scenario theorems and witnesses -/

/-- Scenario 3 fixture: three tracks of artist `a1` with popularities 10, 50, 30. -/
def trkPop10 : Track := ⟨some "t1", some "n1", [⟨some "a1", some "A1"⟩], some "al", some 10⟩

def trkPop50 : Track := ⟨some "t2", some "n2", [⟨some "a1", some "A1"⟩], some "al", some 50⟩

def trkPop30 : Track := ⟨some "t3", some "n3", [⟨some "a1", some "A1"⟩], some "al", some 30⟩

/-- Scenario 3 provider: `a1` yields the three tracks, no related artists. -/
def provC1 : Provider :=
  ⟨fun a _ => if a = "a1" then .ok [trkPop10, trkPop50, trkPop30] else .ok [],
   fun _ => .ok []⟩

/-- Scenario 3 configuration: `top_per_artist = 3`, `related_per_seed = 0`. -/
def cfgC1 : Config := ⟨3, 0, 150, "PL"⟩

/-! ### Lemmas about `dedup_rows` -/

theorem mem_dedupGo {seen : List String} {rows : List Row} {r : Row}
    (h : r ∈ dedupGo seen rows) : r ∈ rows ∧ tidStr r ≠ "" ∧ tidStr r ∉ seen := by
  induction rows generalizing seen with
  | nil => simp [dedupGo] at h
  | cons a rs ih =>
    simp only [dedupGo] at h
    by_cases hc : tidStr a ≠ "" ∧ tidStr a ∉ seen
    · rw [if_pos hc] at h
      rcases List.mem_cons.mp h with rfl | h
      · exact ⟨List.mem_cons_self _ _, hc.1, hc.2⟩
      · obtain ⟨h1, h2, h3⟩ := ih h
        exact ⟨List.mem_cons_of_mem _ h1, h2, fun hs => h3 (List.mem_cons_of_mem _ hs)⟩
    · rw [if_neg hc] at h
      obtain ⟨h1, h2, h3⟩ := ih h
      exact ⟨List.mem_cons_of_mem _ h1, h2, h3⟩

theorem nodup_tid_dedupGo (seen : List String) (rows : List Row) :
    ((dedupGo seen rows).map tidStr).Nodup := by
  induction rows generalizing seen with
  | nil => simp [dedupGo]
  | cons a rs ih =>
    simp only [dedupGo]
    by_cases hc : tidStr a ≠ "" ∧ tidStr a ∉ seen
    · rw [if_pos hc]
      simp only [List.map_cons, List.nodup_cons]
      refine ⟨?_, ih _⟩
      intro hmem
      obtain ⟨r, hr, hte⟩ := List.mem_map.mp hmem
      exact (mem_dedupGo hr).2.2 (by rw [hte]; exact List.mem_cons_self _ _)
    · rw [if_neg hc]
      exact ih _

/-! ### Lemmas about `remove_owned` -/

theorem remove_owned_sublist (rows : List Row) (cat : List (Option String)) :
    List.Sublist (remove_owned rows cat) rows := by
  unfold remove_owned
  split
  · exact List.Sublist.refl _
  · exact List.filter_sublist _

theorem not_owned_of_mem_remove_owned {rows : List Row} {cat : List (Option String)} {r : Row}
    (h : r ∈ remove_owned rows cat) : tidStr r ∉ ownedSet cat := by
  unfold remove_owned at h
  cases cat with
  | nil => simp [ownedSet]
  | cons c cs =>
    rw [if_neg (by simp)] at h
    simpa using List.of_mem_filter h

/-! ### Lemmas about the ranking step -/

theorem rankRows_perm (rows : List Row) : List.Perm (rankRows rows) rows :=
  List.perm_insertionSort _ _

theorem rankRows_sorted (rows : List Row) : List.Sorted rowKeyLe (rankRows rows) :=
  List.sorted_insertionSort _ _

/-- Rows with equal sort keys are related both ways by `rowKeyLe`. -/
theorem rowKeyLe_of_key_eq {a x : Row} (h : sort_key x = sort_key a) : rowKeyLe a x :=
  Or.inr ⟨by rw [h], by rw [h]⟩

theorem filter_key_orderedInsert (a : Row) (l : List Row) (k : Int × Int) :
    (List.orderedInsert rowKeyLe a l).filter (fun r => decide (sort_key r = k)) =
      (a :: l).filter (fun r => decide (sort_key r = k)) := by
  rw [List.orderedInsert_eq_take_drop, List.filter_append]
  by_cases hk : sort_key a = k
  · have htake :
        (l.takeWhile fun b => decide (¬ rowKeyLe a b)).filter
            (fun r => decide (sort_key r = k)) = [] := by
      rw [List.filter_eq_nil_iff]
      intro x hx
      have hnle : ¬ rowKeyLe a x := by simpa using List.mem_takeWhile_imp hx
      simp only [decide_eq_true_eq]
      intro hxk
      exact hnle (rowKeyLe_of_key_eq (by rw [hxk, hk]))
    rw [htake, List.nil_append, List.filter_cons, List.filter_cons,
      if_pos (by simpa using hk), if_pos (by simpa using hk)]
    have : l.filter (fun r => decide (sort_key r = k)) =
        ((l.takeWhile fun b => decide (¬ rowKeyLe a b)).filter fun r => decide (sort_key r = k)) ++
          ((l.dropWhile fun b => decide (¬ rowKeyLe a b)).filter fun r => decide (sort_key r = k)) := by
      rw [← List.filter_append, List.takeWhile_append_dropWhile]
    rw [this, htake, List.nil_append]
  · rw [List.filter_cons, List.filter_cons, if_neg (by simpa using hk),
      if_neg (by simpa using hk), ← List.filter_append, List.takeWhile_append_dropWhile]

theorem rankRows_stable (rows : List Row) (k : Int × Int) :
    (rankRows rows).filter (fun r => decide (sort_key r = k)) =
      rows.filter (fun r => decide (sort_key r = k)) := by
  induction rows with
  | nil => rfl
  | cons a rs ih =>
    show (List.orderedInsert rowKeyLe a (List.insertionSort rowKeyLe rs)).filter _ = _
    rw [filter_key_orderedInsert, List.filter_cons, List.filter_cons]
    unfold rankRows at ih
    rw [ih]

/-! ### Membership and shape of the final pipeline output -/

/-- The truncation step is a sublist of the ranked rows. -/
theorem gen_final_sublist (cfg : Config) (rows3 : List Row) :
    List.Sublist (truncateTarget cfg rows3) rows3 := by
  unfold truncateTarget
  split
  · exact List.take_sublist _ _
  · exact List.Sublist.refl _

/-- The truncation step respects the target bound. -/
theorem truncateTarget_length (cfg : Config) (rows3 : List Row) :
    (truncateTarget cfg rows3).length ≤ cfg.targetTracks := by
  unfold truncateTarget
  split
  · rw [List.length_take]
    exact min_le_left _ _
  · omega

/-- C2: For every run of the RecommendationExpander — any provider, any
configuration, any seed list, any owned catalog — the final CandidateList has
pairwise-distinct `track_id` values and its length is at most `target_tracks`. -/
theorem c2_dedup_and_size_bound (p : Provider) (cfg : Config) (seeds : List String)
    (cat : List (Option String)) :
    ((gen_for_seeds p cfg seeds cat).map tidStr).Nodup ∧
      (gen_for_seeds p cfg seeds cat).length ≤ cfg.targetTracks := by
  unfold gen_for_seeds
  have hn1 : ((dedup_rows (genLoop p cfg seeds ⟨[], [], []⟩).rows).map tidStr).Nodup :=
    nodup_tid_dedupGo [] _
  have hn2 :
      ((remove_owned (dedup_rows (genLoop p cfg seeds ⟨[], [], []⟩).rows) cat).map tidStr).Nodup :=
    hn1.sublist ((remove_owned_sublist _ _).map tidStr)
  have hn3 :
      ((rankRows (remove_owned (dedup_rows (genLoop p cfg seeds ⟨[], [], []⟩).rows) cat)).map
          tidStr).Nodup :=
    ((rankRows_perm _).map tidStr).nodup_iff.mpr hn2
  exact ⟨hn3.sublist ((gen_final_sublist cfg _).map tidStr), truncateTarget_length cfg _⟩

/-- C3: No candidate in the final CandidateList carries a `track_id` from the
owned catalog: every owned candidate is dropped in post-processing. -/
theorem c3_ownership_exclusion (p : Provider) (cfg : Config) (seeds : List String)
    (cat : List (Option String)) :
    ∀ r ∈ gen_for_seeds p cfg seeds cat, tidStr r ∉ ownedSet cat := by
  intro r hr
  unfold gen_for_seeds at hr
  have h3 : r ∈ rankRows (remove_owned (dedup_rows (genLoop p cfg seeds ⟨[], [], []⟩).rows) cat) :=
    (gen_final_sublist cfg _).subset hr
  have h2 : r ∈ remove_owned (dedup_rows (genLoop p cfg seeds ⟨[], [], []⟩).rows) cat :=
    (rankRows_perm _).mem_iff.mp h3
  exact not_owned_of_mem_remove_owned h2

/-- C3 witness: a concrete run in which the conclusion is checked at a member
of the output list. -/
theorem c3_ownership_exclusion_witness :
    tidStr (as_row trkPop50 "seed_top") ∉ ownedSet [some "t1"] :=
  c3_ownership_exclusion provC1 cfgC1 ["a1"] [some "t1"]
    (as_row trkPop50 "seed_top") (by decide)

/-- C10: Deduplication silently drops every collected candidate whose
`track_id` is missing or empty (dedup output rows all carry a non-empty id and
come from the input), so every entry of the final CandidateList has a
non-empty `track_id`. -/
theorem c10_nonempty_track_id :
    (∀ (rows : List Row) (r : Row), r ∈ dedup_rows rows → r ∈ rows ∧ tidStr r ≠ "") ∧
      ∀ (p : Provider) (cfg : Config) (seeds : List String) (cat : List (Option String))
        (r : Row), r ∈ gen_for_seeds p cfg seeds cat → tidStr r ≠ "" := by
  constructor
  · intro rows r h
    exact ⟨(mem_dedupGo h).1, (mem_dedupGo h).2.1⟩
  · intro p cfg seeds cat r hr
    unfold gen_for_seeds at hr
    have h3 : r ∈ rankRows (remove_owned (dedup_rows (genLoop p cfg seeds ⟨[], [], []⟩).rows) cat) :=
      (gen_final_sublist cfg _).subset hr
    have h2 : r ∈ remove_owned (dedup_rows (genLoop p cfg seeds ⟨[], [], []⟩).rows) cat :=
      (rankRows_perm _).mem_iff.mp h3
    have h1 : r ∈ dedup_rows (genLoop p cfg seeds ⟨[], [], []⟩).rows :=
      (remove_owned_sublist _ _).subset h2
    exact (mem_dedupGo h1).2.1

/-- C1: The final candidate list is produced by a stable sort on the key
`(source_priority, -popularity)` — `seed_top` before `by_related_top`,
missing popularity read as 0: the concrete Scenario 3 run orders the three
seed tracks `[pop50, pop30, pop10]` all tagged `seed_top`, the ranking step
is a permutation of its input, every final list is sorted by the key, and
rows with equal keys keep their collection order (stability). -/
theorem c1_rank_stable_sort :
    gen_for_seeds provC1 cfgC1 ["a1"] [] =
        [as_row trkPop50 "seed_top", as_row trkPop30 "seed_top", as_row trkPop10 "seed_top"] ∧
      (∀ rows : List Row, List.Perm (rankRows rows) rows) ∧
      (∀ (p : Provider) (cfg : Config) (seeds : List String) (cat : List (Option String)),
        List.Sorted rowKeyLe (gen_for_seeds p cfg seeds cat)) ∧
      ∀ (rows : List Row) (k : Int × Int),
        (rankRows rows).filter (fun r => decide (sort_key r = k)) =
          rows.filter (fun r => decide (sort_key r = k)) := by
  refine ⟨by decide, rankRows_perm, ?_, rankRows_stable⟩
  intro p cfg seeds cat
  unfold gen_for_seeds
  exact List.Pairwise.sublist (gen_final_sublist cfg _) (rankRows_sorted _)

/-! ### C7: provider-failure isolation -/

/-- The provider with the top-tracks response for one `(artist, market)` pair
replaced by a successful empty response. -/
def recoverTop (p : Provider) (a m : String) : Provider :=
  { p with topTracks := fun x y => if x = a ∧ y = m then .ok [] else p.topTracks x y }

/-- The provider with the related-artists response for one artist replaced by
a successful empty response. -/
def recoverRel (p : Provider) (a : String) : Provider :=
  { p with relatedArtists := fun x => if x = a then .ok [] else p.relatedArtists x }

theorem relLoop_congr {p q : Provider} (cfg : Config)
    (ht : ∀ x y, get_top_tracks p x y = get_top_tracks q x y) :
    ∀ (ids : List String) (st : GenState), relLoop p cfg ids st = relLoop q cfg ids st := by
  intro ids
  induction ids with
  | nil => intro st; rfl
  | cons i is ih =>
    intro st
    simp only [relLoop, tracks_from_artist, ht]
    split
    · exact ih st
    · exact ih _

theorem genLoop_congr {p q : Provider} (cfg : Config)
    (ht : ∀ x y, get_top_tracks p x y = get_top_tracks q x y)
    (hr : ∀ x, get_related p x = get_related q x) :
    ∀ (seeds : List String) (st : GenState), genLoop p cfg seeds st = genLoop q cfg seeds st := by
  intro seeds
  induction seeds with
  | nil => intro st; rfl
  | cons s rest ih =>
    intro st
    simp only [genLoop, relStep, seedTopStep, tracks_from_artist, ht, hr,
      relLoop_congr cfg ht, ih]

/-- C7: A failing provider call (top-tracks for one `(artist, market)`, or
related-artists for one artist) is absorbed at the call site as an empty
result, and the whole run computes exactly what it would compute had that
call succeeded with zero results — it is never aborted. -/
theorem c7_provider_failure_isolated :
    (∀ (p : Provider) (a m e : String), p.topTracks a m = .error e →
        get_top_tracks p a m = [] ∧
          ∀ (cfg : Config) (seeds : List String) (cat : List (Option String)),
            gen_for_seeds p cfg seeds cat = gen_for_seeds (recoverTop p a m) cfg seeds cat) ∧
      ∀ (p : Provider) (a e : String), p.relatedArtists a = .error e →
        get_related p a = [] ∧
          ∀ (cfg : Config) (seeds : List String) (cat : List (Option String)),
            gen_for_seeds p cfg seeds cat = gen_for_seeds (recoverRel p a) cfg seeds cat := by
  constructor
  · intro p a m e he
    have ht : ∀ x y, get_top_tracks p x y = get_top_tracks (recoverTop p a m) x y := by
      intro x y
      simp only [get_top_tracks, recoverTop]
      by_cases hxy : x = a ∧ y = m
      · rw [if_pos hxy]
        obtain ⟨rfl, rfl⟩ := hxy
        rw [he]
      · rw [if_neg hxy]
    have hr : ∀ x, get_related p x = get_related (recoverTop p a m) x := fun _ => rfl
    refine ⟨?_, fun cfg seeds cat => ?_⟩
    · simp only [get_top_tracks, he]
    · unfold gen_for_seeds
      rw [genLoop_congr cfg ht hr]
  · intro p a e he
    have ht : ∀ x y, get_top_tracks p x y = get_top_tracks (recoverRel p a) x y := fun _ _ => rfl
    have hr : ∀ x, get_related p x = get_related (recoverRel p a) x := by
      intro x
      simp only [get_related, recoverRel]
      by_cases hx : x = a
      · rw [if_pos hx]
        subst hx
        rw [he]
      · rw [if_neg hx]
    refine ⟨?_, fun cfg seeds cat => ?_⟩
    · simp only [get_related, he]
    · unfold gen_for_seeds
      rw [genLoop_congr cfg ht hr]

/-- A provider whose every top-tracks call raises. -/
def provFailTop : Provider := ⟨fun _ _ => .error "HTTP 404", fun _ => .ok []⟩

/-- A provider whose every related-artists call raises. -/
def provFailRel : Provider := ⟨fun _ _ => .ok [], fun _ => .error "HTTP 404"⟩

/-- C7 witness: the isolation checked on concrete failing providers. -/
theorem c7_provider_failure_isolated_witness :
    (get_top_tracks provFailTop "x" "PL" = [] ∧
        gen_for_seeds provFailTop cfgC1 ["x"] [] =
          gen_for_seeds (recoverTop provFailTop "x" "PL") cfgC1 ["x"] []) ∧
      get_related provFailRel "x" = [] ∧
        gen_for_seeds provFailRel cfgC1 ["x"] [] =
          gen_for_seeds (recoverRel provFailRel "x") cfgC1 ["x"] [] :=
  ⟨⟨(c7_provider_failure_isolated.1 provFailTop "x" "PL" "HTTP 404" rfl).1,
      (c7_provider_failure_isolated.1 provFailTop "x" "PL" "HTTP 404" rfl).2 cfgC1 ["x"] []⟩,
    (c7_provider_failure_isolated.2 provFailRel "x" "HTTP 404" rfl).1,
    (c7_provider_failure_isolated.2 provFailRel "x" "HTTP 404" rfl).2 cfgC1 ["x"] []⟩

/-! ### C4: the related-artist selection and the shared visited set -/

/-- The ids the inner loop actually visits: those of the (already truncated)
list not yet in `visited`, each marking itself visited for later ids. -/
def newIds : List String → List String → List String
  | [], _ => []
  | i :: is, used => if i ∈ used then newIds is used else i :: newIds is (used ++ [i])

theorem relLoop_closed (p : Provider) (cfg : Config) :
    ∀ (ids : List String) (st : GenState),
      relLoop p cfg ids st =
        { used := st.used ++ newIds ids st.used
          rows := st.rows ++
            (newIds ids st.used).flatMap
              (fun rid => (tracks_from_artist p cfg rid).map (as_row · "by_related_top"))
          calls := st.calls ++
            (newIds ids st.used).map (fun rid => ProviderCall.top rid cfg.market) } := by
  intro ids
  induction ids with
  | nil => intro st; simp [relLoop, newIds]
  | cons i is ih =>
    intro st
    by_cases hi : i ∈ st.used
    · simp only [relLoop, newIds, if_pos hi, ih]
    · simp only [relLoop, newIds, if_neg hi, ih]
      simp [List.append_assoc]

/-- One seed iteration only grows the visited set. -/
theorem relStep_used_mono (p : Provider) (cfg : Config) (seed : String) (st1 : GenState) :
    st1.used ⊆ (relStep p cfg seed st1).used := by
  unfold relStep
  split
  · rw [relLoop_closed]
    exact fun x hx => List.mem_append_left _ hx
  · exact fun x hx => hx

/-- Monotonicity of the visited set: the seed loop only ever adds to
`used_artists`, never resets it between seeds. -/
theorem genLoop_used_mono (p : Provider) (cfg : Config) :
    ∀ (seeds : List String) (st : GenState), st.used ⊆ (genLoop p cfg seeds st).used := by
  intro seeds
  induction seeds with
  | nil => intro st; exact fun x hx => hx
  | cons s rest ih =>
    intro st
    rw [genLoop]
    split
    · exact relStep_used_mono p cfg s (seedTopStep p cfg s st)
    · exact (relStep_used_mono p cfg s (seedTopStep p cfg s st)).trans (ih _)

/-- The per-seed step the code actually performs when expansion is enabled:
truncate the related list to `related_per_seed` FIRST, then drop the ids
already visited, mark only the remainder visited, and fetch top tracks for
exactly that remainder. -/
def genLoopStep (p : Provider) (cfg : Config) (seed : String) (rest : List String)
    (st : GenState) : GenState :=
  let st1 : GenState :=
    { used := st.used
      rows := st.rows ++ (tracks_from_artist p cfg seed).map (as_row · "seed_top")
      calls := st.calls ++ [ProviderCall.top seed cfg.market] }
  let fresh :=
    newIds (((get_related p seed).filterMap artistIdTruthy).take cfg.relatedPerSeed) st.used
  let st2 : GenState :=
    { used := st.used ++ fresh
      rows := st1.rows ++
        fresh.flatMap (fun rid => (tracks_from_artist p cfg rid).map (as_row · "by_related_top"))
      calls := (st1.calls ++ [ProviderCall.related seed]) ++
        fresh.map (fun rid => ProviderCall.top rid cfg.market) }
  if cfg.targetTracks * 2 ≤ st2.rows.length then st2 else genLoop p cfg rest st2

/-- Modelled from the spec: the claimed selection — "take the first
`related_per_seed` ids **not already in `visited`**" — filters out visited
ids before truncating. -/
def specRelSelect (relatedIds visited : List String) (n : Nat) : List String :=
  (relatedIds.filter (fun i => decide (i ∉ visited))).take n

/-- Fixture tracks for the C4 run. -/
def trkS1 : Track := ⟨some "ts1", none, [], none, some 5⟩

def trkS2 : Track := ⟨some "ts2", none, [], none, some 5⟩

def trkA : Track := ⟨some "ta", none, [], none, some 5⟩

def trkB : Track := ⟨some "tb", none, [], none, some 5⟩

/-- C4 fixture provider: `s1` is related to `a`; `s2` is related to `a, b`. -/
def provC4 : Provider :=
  ⟨fun a _ =>
      if a = "s1" then .ok [trkS1]
      else if a = "s2" then .ok [trkS2]
      else if a = "a" then .ok [trkA]
      else if a = "b" then .ok [trkB]
      else .ok [],
   fun a =>
      if a = "s1" then .ok [⟨some "a", none⟩]
      else if a = "s2" then .ok [⟨some "a", none⟩, ⟨some "b", none⟩]
      else .ok []⟩

/-- C4 fixture configuration: one related artist per seed. -/
def cfgC4 : Config := ⟨1, 1, 150, "PL"⟩

/-- C4 counterexample: processing seed `s2` with `visited = {a}` and
`related(s2) = [a, b]`, the claimed selection would visit and fetch `b`
(so `b`'s track would reach the output), but the code truncates the related
list to `[a]` before consulting `visited`, so `b` is never visited and its
track is absent from the final list. -/
theorem c4_visited_truncation_cex :
    specRelSelect ["a", "b"] ["a"] 1 = ["b"] ∧
      newIds (["a", "b"].take 1) ["a"] = [] ∧
      (genLoop provC4 cfgC4 ["s1", "s2"] ⟨[], [], []⟩).used = ["a"] ∧
      as_row trkB "by_related_top" ∉ gen_for_seeds provC4 cfgC4 ["s1", "s2"] [] ∧
      get_top_tracks provC4 "b" "PL" = [trkB] := by decide

/-- C4 amended: when `related_per_seed > 0` the expander takes the first
`related_per_seed` related ids before consulting `visited`, then skips the
already-visited ones among them, marks exactly the remainder visited and
fetches each of their top tracks tagged `by_related_top`; the visited set is
only ever grown, shared across all seeds of the run. -/
theorem c4_traversal_amended (p : Provider) (cfg : Config) (seed : String)
    (rest : List String) (st : GenState) (h : 0 < cfg.relatedPerSeed) :
    genLoop p cfg (seed :: rest) st = genLoopStep p cfg seed rest st ∧
      ∀ (seeds : List String) (st' : GenState), st'.used ⊆ (genLoop p cfg seeds st').used := by
  refine ⟨?_, genLoop_used_mono p cfg⟩
  rw [genLoop]
  simp only [genLoopStep, relStep, seedTopStep, if_pos h, relLoop_closed p cfg]

/-- C4 amended witness: the per-seed equation and monotonicity checked on the
concrete fixture run. -/
theorem c4_traversal_amended_witness :
    genLoop provC4 cfgC4 ("s1" :: ["s2"]) ⟨[], [], []⟩ =
        genLoopStep provC4 cfgC4 "s1" ["s2"] ⟨[], [], []⟩ ∧
      ∀ (seeds : List String) (st' : GenState),
        st'.used ⊆ (genLoop provC4 cfgC4 seeds st').used :=
  c4_traversal_amended provC4 cfgC4 "s1" ["s2"] ⟨[], [], []⟩ (by decide)

/-! ### C9: no fail-fast validation of the numeric knobs -/

/-- The default knobs with `TARGET_TRACKS` set to the invalid value 0. -/
def cfgC9 : Config := ⟨6, 12, 0, "PL"⟩

/-- C9 counterexample: with `target_tracks = 0` (an invalid knob) the run
does not fail before external calls — it performs two provider calls for the
first seed and then completes normally with an empty list. -/
theorem c9_no_fail_fast_cex :
    genCalls provC1 cfgC9 ["a1"] =
        [ProviderCall.top "a1" "PL", ProviderCall.related "a1"] ∧
      gen_for_seeds provC1 cfgC9 ["a1"] [] = [] := by decide

/-- C9 amended: the knobs are unvalidated module constants — with
`target_tracks = 0` every run still completes and returns the empty list,
and any run with at least one seed still makes a provider call first. -/
theorem c9_invalid_knob_amended (p : Provider) (cfg : Config) (seeds : List String)
    (cat : List (Option String)) (h : cfg.targetTracks = 0) :
    gen_for_seeds p cfg seeds cat = [] ∧ (seeds ≠ [] → genCalls p cfg seeds ≠ []) := by
  constructor
  · unfold gen_for_seeds truncateTarget
    rw [h]
    split
    · exact List.take_zero _
    · rename_i hlen
      exact List.eq_nil_of_length_eq_zero (by omega)
  · intro hne
    cases seeds with
    | nil => exact absurd rfl hne
    | cons s rest =>
      unfold genCalls
      rw [genLoop]
      rw [if_pos (by rw [h]; exact Nat.zero_le _)]
      unfold relStep
      split
      · rw [relLoop_closed]
        simp [seedTopStep]
      · simp [seedTopStep]

/-- C9 amended witness: checked on the concrete zero-target run. -/
theorem c9_invalid_knob_amended_witness :
    gen_for_seeds provC1 cfgC9 ["a1"] [] = [] ∧ genCalls provC1 cfgC9 ["a1"] ≠ [] :=
  ⟨(c9_invalid_knob_amended provC1 cfgC9 ["a1"] [] rfl).1,
    (c9_invalid_knob_amended provC1 cfgC9 ["a1"] [] rfl).2 (by decide)⟩

/-- C10 witness: the guarantees checked on a concrete run. -/
theorem c10_nonempty_track_id_witness :
    (as_row trkPop50 "seed_top" ∈ [as_row trkPop50 "seed_top"] ∧
        tidStr (as_row trkPop50 "seed_top") ≠ "") ∧
      tidStr (as_row trkPop50 "seed_top") ≠ "" :=
  ⟨c10_nonempty_track_id.1 [as_row trkPop50 "seed_top"] _ (by decide),
    c10_nonempty_track_id.2 provC1 cfgC1 ["a1"] [] _ (by decide)⟩

/-! ### C5: canonicalization keeps the maximum-weight variant -/

theorem mem_dropDupTidGo {seen : List String} {l : List CatRec} {r : CatRec}
    (h : r ∈ dropDupTidGo seen l) : r ∈ l ∧ r.track_id ∉ seen := by
  induction l generalizing seen with
  | nil => simp [dropDupTidGo] at h
  | cons a as ih =>
    simp only [dropDupTidGo] at h
    by_cases ha : a.track_id ∈ seen
    · rw [if_pos ha] at h
      obtain ⟨h1, h2⟩ := ih h
      exact ⟨List.mem_cons_of_mem _ h1, h2⟩
    · rw [if_neg ha] at h
      rcases List.mem_cons.mp h with rfl | h
      · exact ⟨List.mem_cons_self _ _, ha⟩
      · obtain ⟨h1, h2⟩ := ih h
        exact ⟨List.mem_cons_of_mem _ h1, fun hs => h2 (List.mem_cons_of_mem _ hs)⟩

theorem dropDupTidGo_first {seen : List String} {l : List CatRec} {r : CatRec}
    (h : r ∈ dropDupTidGo seen l) :
    ∃ l1 l2, l = l1 ++ r :: l2 ∧ ∀ x ∈ l1, x.track_id ≠ r.track_id := by
  induction l generalizing seen with
  | nil => simp [dropDupTidGo] at h
  | cons a as ih =>
    simp only [dropDupTidGo] at h
    by_cases ha : a.track_id ∈ seen
    · rw [if_pos ha] at h
      obtain ⟨l1, l2, heq, hne⟩ := ih h
      have hr : r.track_id ∉ seen := (mem_dropDupTidGo h).2
      refine ⟨a :: l1, l2, by rw [heq, List.cons_append], ?_⟩
      intro x hx
      rcases List.mem_cons.mp hx with rfl | hx
      · intro hc
        exact hr (hc ▸ ha)
      · exact hne x hx
    · rw [if_neg ha] at h
      rcases List.mem_cons.mp h with rfl | h
      · exact ⟨[], as, rfl, by simp⟩
      · obtain ⟨l1, l2, heq, hne⟩ := ih h
        have hr : r.track_id ∉ a.track_id :: seen := (mem_dropDupTidGo h).2
        refine ⟨a :: l1, l2, by rw [heq, List.cons_append], ?_⟩
        intro x hx
        rcases List.mem_cons.mp hx with rfl | hx
        · intro hc
          exact hr (by rw [← hc]; exact List.mem_cons_self _ _)
        · exact hne x hx

theorem nodup_tid_dropDupTidGo (seen : List String) (l : List CatRec) :
    ((dropDupTidGo seen l).map CatRec.track_id).Nodup := by
  induction l generalizing seen with
  | nil => simp [dropDupTidGo]
  | cons a as ih =>
    simp only [dropDupTidGo]
    by_cases ha : a.track_id ∈ seen
    · rw [if_pos ha]
      exact ih _
    · rw [if_neg ha]
      simp only [List.map_cons, List.nodup_cons]
      refine ⟨?_, ih _⟩
      intro hmem
      obtain ⟨r, hr, hte⟩ := List.mem_map.mp hmem
      exact (mem_dropDupTidGo hr).2 (by rw [hte]; exact List.mem_cons_self _ _)

theorem exists_tid_dropDupTidGo {seen : List String} {l : List CatRec} {x : CatRec}
    (hx : x ∈ l) (hs : x.track_id ∉ seen) :
    ∃ r ∈ dropDupTidGo seen l, r.track_id = x.track_id := by
  induction l generalizing seen with
  | nil => simp at hx
  | cons a as ih =>
    simp only [dropDupTidGo]
    by_cases ha : a.track_id ∈ seen
    · rw [if_pos ha]
      rcases List.mem_cons.mp hx with rfl | hx
      · exact absurd ha hs
      · exact ih hx hs
    · rw [if_neg ha]
      rcases List.mem_cons.mp hx with rfl | hx
      · exact ⟨x, List.mem_cons_self _ _, rfl⟩
      · by_cases hax : x.track_id = a.track_id
        · exact ⟨a, List.mem_cons_self _ _, hax.symm⟩
        · have hnot : x.track_id ∉ a.track_id :: seen := by
            intro hc
            rcases List.mem_cons.mp hc with hc | hc
            · exact hax hc
            · exact hs hc
          obtain ⟨r, hr, he⟩ := ih hx hnot
          exact ⟨r, List.mem_cons_of_mem _ hr, he⟩

/-- In a `catLe`-sorted list, the first record of a `track_id` group carries
the group's maximum weight. -/
theorem max_weight_of_sorted_first {l l1 l2 : List CatRec} {r : CatRec}
    (hs : List.Sorted catLe l) (heq : l = l1 ++ r :: l2)
    (hne : ∀ x ∈ l1, x.track_id ≠ r.track_id) :
    ∀ s ∈ l, s.track_id = r.track_id → wOf s ≤ wOf r := by
  intro s hsl hst
  rw [heq] at hsl
  rcases List.mem_append.mp hsl with h1 | h2
  · exact absurd hst (hne s h1)
  · rcases List.mem_cons.mp h2 with rfl | h2
    · exact le_refl _
    · have hsr : List.Sorted catLe (r :: l2) := by
        rw [heq] at hs
        exact List.Pairwise.sublist (List.sublist_append_right l1 (r :: l2)) hs
      rcases List.rel_of_sorted_cons hsr s h2 with hlt | ⟨_, hw⟩
      · rw [hst] at hlt
        exact absurd hlt (lt_irrefl _)
      · exact hw

/-- Scenario 2 fixture: the same track saved (weight 1.0)… -/
def recSaved : CatRec := ⟨"t1", some "a1", some "A", none, some savedWeight, "saved"⟩

/-- …and recently played (weight 2.2), concatenated after it. -/
def recRecent : CatRec := ⟨"t1", some "a1", some "A", none, some recentWeight, "recent"⟩

/-- The canonicalizing sort puts the 2.2-weight variant before the 1.0 one. -/
theorem catLe_saved_recent : ¬ catLe (fillWeight recSaved) (fillWeight recRecent) := by
  intro h
  rcases h with h | ⟨_, h⟩
  · exact lt_irrefl ("t1" : String) h
  · norm_num [wOf, fillWeight, recSaved, recRecent, recentWeight, savedWeight] at h

/-- Scenario 2 evaluated: only the recently-played variant survives. -/
theorem canonicalize_scenario2 : canonicalize [recSaved, recRecent] = [recRecent] := by
  unfold canonicalize
  rw [show ([recSaved, recRecent].map fillWeight) =
    [fillWeight recSaved, fillWeight recRecent] from rfl]
  rw [show List.insertionSort catLe [fillWeight recSaved, fillWeight recRecent] =
    List.orderedInsert catLe (fillWeight recSaved) [fillWeight recRecent] from rfl]
  rw [List.orderedInsert, if_neg catLe_saved_recent, List.orderedInsert]
  show dropDupTidGo [] [fillWeight recRecent, fillWeight recSaved] = [recRecent]
  rw [dropDupTidGo, if_neg (List.not_mem_nil _), dropDupTidGo,
    if_pos (show (fillWeight recSaved).track_id ∈ [(fillWeight recRecent).track_id] from
      List.mem_singleton.mpr rfl)]
  rfl

/-- C5: Canonicalization retains, for every `track_id` group, exactly one
record — one of maximal weight — and every input `track_id` survives; in
Scenario 2 the 2.2-weight recently-played variant is the one retained. -/
theorem c5_canonicalize_max_weight :
    canonicalize [recSaved, recRecent] = [recRecent] ∧
      ∀ recs : List CatRec,
        ((canonicalize recs).map CatRec.track_id).Nodup ∧
          (∀ r ∈ canonicalize recs,
            (∃ s ∈ recs, fillWeight s = r) ∧
              ∀ s ∈ recs, s.track_id = r.track_id → wOf s ≤ wOf r) ∧
          ∀ s ∈ recs, ∃ r ∈ canonicalize recs, r.track_id = s.track_id := by
  refine ⟨canonicalize_scenario2, ?_⟩
  intro recs
  simp only [canonicalize]
  refine ⟨nodup_tid_dropDupTidGo _ _, ?_, ?_⟩
  · intro r hr
    have hperm : List.Perm (List.insertionSort catLe (recs.map fillWeight))
        (recs.map fillWeight) := List.perm_insertionSort _ _
    have hrl : r ∈ List.insertionSort catLe (recs.map fillWeight) := (mem_dropDupTidGo hr).1
    constructor
    · have hmm : r ∈ recs.map fillWeight := hperm.mem_iff.mp hrl
      obtain ⟨s, hsm, he⟩ := List.mem_map.mp hmm
      exact ⟨s, hsm, he⟩
    · intro s hsmem hst
      obtain ⟨l1, l2, heq, hne⟩ := dropDupTidGo_first hr
      have hsort : List.Sorted catLe (List.insertionSort catLe (recs.map fillWeight)) :=
        List.sorted_insertionSort _ _
      have hsl : fillWeight s ∈ List.insertionSort catLe (recs.map fillWeight) :=
        hperm.mem_iff.mpr (List.mem_map_of_mem _ hsmem)
      exact max_weight_of_sorted_first hsort heq hne (fillWeight s) hsl hst
  · intro s hsmem
    have hperm := List.perm_insertionSort catLe (recs.map fillWeight)
    have hsl : fillWeight s ∈ List.insertionSort catLe (recs.map fillWeight) :=
      hperm.mem_iff.mpr (List.mem_map_of_mem _ hsmem)
    obtain ⟨r, hr, he⟩ := exists_tid_dropDupTidGo hsl (List.not_mem_nil _)
    exact ⟨r, hr, he⟩

/-- C5 witness: the maximality and existence conclusions checked on the
Scenario 2 records. -/
theorem c5_canonicalize_max_weight_witness :
    wOf recSaved ≤ wOf recRecent ∧
      ∃ r ∈ canonicalize [recSaved, recRecent], r.track_id = recSaved.track_id :=
  ⟨((c5_canonicalize_max_weight.2 [recSaved, recRecent]).2.1 recRecent
        (by rw [c5_canonicalize_max_weight.1]; exact List.mem_cons_self _ _)).2
      recSaved (List.mem_cons_self _ _) rfl,
    (c5_canonicalize_max_weight.2 [recSaved, recRecent]).2.2 recSaved
      (List.mem_cons_self _ _)⟩

/-! ### C6: the artist accumulator is keyed by the `(artist_id, artist_name)` pair -/

theorem alLookup_bump {κ : Type} [DecidableEq κ] (k k' : κ) (w : ℚ) (acc : List (κ × ℚ)) :
    alLookup k (bump k' w acc) =
      if k' = k then some ((alLookup k acc).getD 0 + w) else alLookup k acc := by
  induction acc with
  | nil =>
    by_cases h : k' = k <;> simp [bump, alLookup, h, zero_add]
  | cons hd tl ih =>
    obtain ⟨k0, v⟩ := hd
    by_cases h0 : k0 = k'
    · subst h0
      by_cases hk : k0 = k
      · subst hk
        simp [bump, alLookup]
      · simp [bump, alLookup, hk]
    · by_cases hk : k0 = k
      · subst hk
        have hk' : k' ≠ k0 := fun he => h0 he.symm
        simp [bump, alLookup, h0, hk']
      · simp [bump, alLookup, h0, hk, ih]

/-- The total weight the aggregation loop attributes to one
`(artist_id, artist_name)` key. -/
def keyWeightSum (k : String × String) (rows : List CatRec) : ℚ :=
  ((rows.filter (fun r => decide (artistKey r = some k))).map (fun r => pyFloatW r.weight)).sum

theorem artist_counter_foldl (k : String × String) :
    ∀ (rows : List CatRec) (acc : List ((String × String) × ℚ)),
      (alLookup k (rows.foldl artStep acc)).getD 0 =
          (alLookup k acc).getD 0 + keyWeightSum k rows ∧
        (alLookup k (rows.foldl artStep acc) = none ↔
          alLookup k acc = none ∧ ∀ r ∈ rows, artistKey r ≠ some k) := by
  intro rows
  induction rows with
  | nil =>
    intro acc
    simp [keyWeightSum]
  | cons r rs ih =>
    intro acc
    rw [List.foldl_cons]
    rcases hak : artistKey r with _ | k1
    · rw [show artStep acc r = acc by simp [artStep, hak]]
      have hsum : keyWeightSum k (r :: rs) = keyWeightSum k rs := by
        simp [keyWeightSum, List.filter_cons, hak]
      rw [hsum]
      refine ⟨(ih acc).1, ?_⟩
      rw [(ih acc).2]
      constructor
      · rintro ⟨h1, h2⟩
        refine ⟨h1, fun x hx => ?_⟩
        rcases List.mem_cons.mp hx with rfl | hx
        · rw [hak]
          simp
        · exact h2 x hx
      · rintro ⟨h1, h2⟩
        exact ⟨h1, fun x hx => h2 x (List.mem_cons_of_mem _ hx)⟩
    · by_cases hk : k1 = k
      · subst hk
        rw [show artStep acc r = bump k1 (pyFloatW r.weight) acc by simp [artStep, hak]]
        have hsum : keyWeightSum k1 (r :: rs) = pyFloatW r.weight + keyWeightSum k1 rs := by
          simp [keyWeightSum, List.filter_cons, hak]
        have hlb : alLookup k1 (bump k1 (pyFloatW r.weight) acc) =
            some ((alLookup k1 acc).getD 0 + pyFloatW r.weight) := by
          rw [alLookup_bump, if_pos rfl]
        constructor
        · rw [(ih _).1, hlb, hsum]
          simp [add_assoc]
        · rw [(ih _).2, hlb]
          constructor
          · rintro ⟨h1, _⟩
            exact absurd h1 (by simp)
          · rintro ⟨_, h2⟩
            exact absurd hak (h2 r (List.mem_cons_self _ _))
      · rw [show artStep acc r = bump k1 (pyFloatW r.weight) acc by simp [artStep, hak]]
        have hsum : keyWeightSum k (r :: rs) = keyWeightSum k rs := by
          simp [keyWeightSum, List.filter_cons, hak, hk]
        have hlb : alLookup k (bump k1 (pyFloatW r.weight) acc) = alLookup k acc := by
          rw [alLookup_bump, if_neg hk]
        rw [hsum]
        refine ⟨by rw [(ih _).1, hlb], ?_⟩
        rw [(ih _).2, hlb]
        constructor
        · rintro ⟨h1, h2⟩
          refine ⟨h1, fun x hx => ?_⟩
          rcases List.mem_cons.mp hx with rfl | hx
          · rw [hak]
            simp [hk]
          · exact h2 x hx
        · rintro ⟨h1, h2⟩
          exact ⟨h1, fun x hx => h2 x (List.mem_cons_of_mem _ hx)⟩

/-- First fixture retained record: artist `a1` under name `X`. -/
def recNameX : CatRec := ⟨"t1", some "a1", some "X", none, some 1, "saved"⟩

/-- Second fixture retained record: the same artist id under name `Y`. -/
def recNameY : CatRec := ⟨"t2", some "a1", some "Y", none, some 1, "saved"⟩

/-- C6 counterexample: two retained records carrying the same `artist_id`
but different `artist_name` strings do NOT merge into a single id-keyed
entry: the accumulator ends with two entries, one per
`(artist_id, artist_name)` pair. -/
theorem c6_artist_key_cex :
    artist_counter [recNameX, recNameY] = [(("a1", "X"), 1), (("a1", "Y"), 1)] ∧
      (artist_counter [recNameX, recNameY]).length ≠ 1 := by decide

/-- C6 amended: the artist-score accumulator is keyed by the pair
`(artist_id, artist_name)` — an entry exists for a pair exactly when some
retained record carries that pair, and its value is the sum of the weights of
exactly the records carrying that pair; records sharing an id but differing
in name therefore land in distinct entries. -/
theorem c6_artist_pair_key_amended (rows : List CatRec) (k : String × String) :
    (alLookup k (artist_counter rows)).getD 0 = keyWeightSum k rows ∧
      (alLookup k (artist_counter rows) = none ↔ ∀ r ∈ rows, artistKey r ≠ some k) := by
  have h := artist_counter_foldl k rows []
  unfold artist_counter
  constructor
  · rw [h.1]
    simp [alLookup]
  · rw [h.2]
    simp [alLookup]

/-! ### C8: blank/nan genre-token handling in the two engines -/

/-- The fixture retained record whose genre string contains a literal `nan`. -/
def recNan : CatRec := ⟨"t1", some "a1", some "X", some "rock, nan", some 1, "saved"⟩

/-- C8 counterexample: `split_genres` keeps the literal token `"nan"`, and
the ProfileBuilder's genre accumulator therefore counts it — the
case-insensitive nan filter exists only in the ComparisonEngine. -/
theorem c8_nan_token_cex :
    split_genres (some "rock, nan") = ["rock", "nan"] ∧
      genre_counter [recNan] = [("rock", 1), ("nan", 1)] := by decide

theorem mem_bump {κ : Type} [DecidableEq κ] {k1 k : κ} {v w : ℚ} {acc : List (κ × ℚ)}
    (h : (k1, v) ∈ bump k w acc) : k1 = k ∨ ∃ v', (k1, v') ∈ acc := by
  induction acc with
  | nil =>
    simp [bump] at h
    exact Or.inl h.1
  | cons hd tl ih =>
    obtain ⟨k0, v0⟩ := hd
    by_cases h0 : k0 = k
    · rw [bump, if_pos h0] at h
      rcases List.mem_cons.mp h with he | hm
      · simp only [Prod.mk.injEq] at he
        exact Or.inl (he.1.trans h0)
      · exact Or.inr ⟨v, List.mem_cons_of_mem _ hm⟩
    · rw [bump, if_neg h0] at h
      rcases List.mem_cons.mp h with he | hm
      · simp only [Prod.mk.injEq] at he
        exact Or.inr ⟨v0, by rw [he.1]; exact List.mem_cons_self _ _⟩
      · rcases ih hm with h1 | ⟨v', hv⟩
        · exact Or.inl h1
        · exact Or.inr ⟨v', List.mem_cons_of_mem _ hv⟩

theorem mem_foldl_bump_tokens {w : ℚ} (toks : List String) :
    ∀ (acc : List (String × ℚ)) (k1 : String) (v : ℚ),
      (k1, v) ∈ toks.foldl (fun a g => bump g w a) acc →
        k1 ∈ toks ∨ ∃ v', (k1, v') ∈ acc := by
  induction toks with
  | nil =>
    intro acc k1 v h
    exact Or.inr ⟨v, h⟩
  | cons g gs ih =>
    intro acc k1 v h
    rw [List.foldl_cons] at h
    rcases ih _ _ _ h with h1 | ⟨v', hv⟩
    · exact Or.inl (List.mem_cons_of_mem _ h1)
    · rcases mem_bump hv with h2 | ⟨v'', hv2⟩
      · exact Or.inl (by rw [h2]; exact List.mem_cons_self _ _)
      · exact Or.inr ⟨v'', hv2⟩

theorem foldl_genStep_key_mem (rows : List CatRec) :
    ∀ (acc : List (String × ℚ)) (k1 : String) (v : ℚ),
      (k1, v) ∈ rows.foldl genStep acc →
        (∃ v', (k1, v') ∈ acc) ∨ ∃ r ∈ rows, k1 ∈ split_genres r.genres := by
  induction rows with
  | nil =>
    intro acc k1 v h
    exact Or.inl ⟨v, h⟩
  | cons r rs ih =>
    intro acc k1 v h
    rw [List.foldl_cons] at h
    rcases ih _ _ _ h with ⟨v', hv⟩ | ⟨r', hr', hk⟩
    · simp only [genStep] at hv
      rcases mem_foldl_bump_tokens _ _ _ _ hv with h1 | ⟨v'', hv2⟩
      · exact Or.inr ⟨r, List.mem_cons_self _ _, h1⟩
      · exact Or.inl ⟨v'', hv2⟩
    · exact Or.inr ⟨r', List.mem_cons_of_mem _ hr', hk⟩

theorem split_genres_ne_blank {x : Option String} {g : String} (h : g ∈ split_genres x) :
    g ≠ "" := by
  rcases x with _ | s
  · simp [split_genres] at h
  · simp only [split_genres] at h
    split at h
    · simp at h
    · simpa using (List.mem_filter.mp h).2

theorem compareTokens_prop {val : Option String} {g : String} (h : g ∈ compareTokens val) :
    g ≠ "" ∧ pyLower g ≠ "nan" := by
  rcases val with _ | s
  · simp [compareTokens] at h
  · simp only [compareTokens] at h
    split at h
    · simp at h
    · have hm := (List.mem_filter.mp h).2
      simp only [Bool.and_eq_true, bne_iff_ne, ne_eq] at hm
      exact hm

theorem mem_setKey {k k0 : String} {v v0 : List String} {gm : List (String × List String)}
    (h : (k, v) ∈ setKey k0 v0 gm) : (k = k0 ∧ v = v0) ∨ (k, v) ∈ gm := by
  induction gm with
  | nil =>
    simp [setKey] at h
    exact Or.inl h
  | cons hd tl ih =>
    obtain ⟨k1, v1⟩ := hd
    by_cases h1 : k1 = k0
    · rw [setKey, if_pos h1] at h
      rcases List.mem_cons.mp h with he | hm
      · simp only [Prod.mk.injEq] at he
        exact Or.inl he
      · exact Or.inr (List.mem_cons_of_mem _ hm)
    · rw [setKey, if_neg h1] at h
      rcases List.mem_cons.mp h with he | hm
      · exact Or.inr (List.mem_cons.mpr (Or.inl he))
      · rcases ih hm with h2 | h2
        · exact Or.inl h2
        · exact Or.inr (List.mem_cons_of_mem _ h2)

theorem alLookup_mem {κ β : Type} [DecidableEq κ] {k : κ} {v : β} :
    ∀ {l : List (κ × β)}, alLookup k l = some v → (k, v) ∈ l := by
  intro l
  induction l with
  | nil =>
    intro h
    simp [alLookup] at h
  | cons hd tl ih =>
    obtain ⟨k0, v0⟩ := hd
    intro h
    rw [alLookup] at h
    by_cases h0 : k0 = k
    · rw [if_pos h0] at h
      have hv : v0 = v := Option.some_inj.mp h
      exact List.mem_cons.mpr (Or.inl (by rw [h0, hv]))
    · rw [if_neg h0] at h
      exact List.mem_cons_of_mem _ (ih h)

theorem genres_map_values (rows : List ArtistRow) :
    ∀ (gm : List (String × List String)),
      (∀ kv ∈ gm, ∃ x : Option String, kv.2 = compareTokens x) →
      ∀ kv ∈ rows.foldl (fun gm r => setKey (pyStr r.artist_id) (compareTokens r.genres) gm) gm,
        ∃ x : Option String, kv.2 = compareTokens x := by
  induction rows with
  | nil =>
    intro gm hgm kv hkv
    exact hgm kv hkv
  | cons r rs ih =>
    intro gm hgm kv hkv
    rw [List.foldl_cons] at hkv
    refine ih _ ?_ kv hkv
    intro kv' hkv'
    obtain ⟨k', v'⟩ := kv'
    rcases mem_setKey hkv' with ⟨_, hv⟩ | hm
    · exact ⟨r.genres, hv⟩
    · exact hgm _ hm

/-- C8 amended: after normalization no genre token used in any score or
count is blank — in the ProfileBuilder's accumulator as in the
ComparisonEngine's lookup — but the case-insensitive `"nan"` filter holds
only for the ComparisonEngine's lookup, not for the ProfileBuilder. -/
theorem c8_genre_token_amended :
    (∀ (x : Option String) (g : String), g ∈ split_genres x → g ≠ "") ∧
      (∀ (rows : List CatRec) (k1 : String) (v : ℚ), (k1, v) ∈ genre_counter rows → k1 ≠ "") ∧
      ∀ (rows : List ArtistRow) (aid : String) (gs : List String),
        alLookup aid (genres_map_from_artists rows) = some gs →
        ∀ g ∈ gs, g ≠ "" ∧ pyLower g ≠ "nan" := by
  refine ⟨fun x g h => split_genres_ne_blank h, ?_, ?_⟩
  · intro rows k1 v h
    unfold genre_counter at h
    rcases foldl_genStep_key_mem rows [] k1 v h with ⟨v', hv⟩ | ⟨r, _, hk⟩
    · simp at hv
    · exact split_genres_ne_blank hk
  · intro rows aid gs hlk g hg
    have hmem := alLookup_mem hlk
    unfold genres_map_from_artists at hmem
    obtain ⟨x, hx⟩ := genres_map_values rows [] (by intro kv hkv; simp at hkv) (aid, gs) hmem
    rw [show ((aid, gs) : String × List String).2 = gs from rfl] at hx
    rw [hx] at hg
    exact compareTokens_prop hg

/-- C8 amended witness: the guarantees checked at concrete tokens. -/
theorem c8_genre_token_amended_witness :
    ("rock" : String) ≠ "" ∧ ("nan" : String) ≠ "" ∧
      (("indie" : String) ≠ "" ∧ pyLower "indie" ≠ "nan") :=
  ⟨c8_genre_token_amended.1 (some "rock, nan") "rock" (by decide),
    c8_genre_token_amended.2.1 [recNan] "nan" 1 (by decide),
    c8_genre_token_amended.2.2 [⟨some "a1", some "indie, nan"⟩] "a1" ["indie"] (by decide)
      "indie" (by decide)⟩

end SpotifyRec
